import Mathlib

/-!
Verification of the task-cli repository against its specification.

The development shallowly embeds the two subsystems the claims concern:

* the interactive prompt engine of `src/index.js` (`showMenu`, `multiSelect`,
  `confirm`, `waitForKey`): each prompt is modelled as a function of the
  option count, the interactivity flag (`process.stdin.isTTY === true`) and
  the list of keypress events it would receive; the result is `none` when the
  prompt never resolves (it would block forever) and `some r` when it
  resolves with payload `r`.  Rendering (`draw`) is pure terminal output and
  is omitted; the option labels enter the model only through their count.

* the record store of the storage module (`TaskStorage`): the on-disk JSON
  array is a `List Task`; `load`/`save` round-trip the same value inside one
  process, so each operation is modelled as a pure function on the list.
  Timestamps (`new Date().toISOString()`) are passed in as explicit `now`
  parameters; ISO timestamps and `YYYY-MM-DD` due-date strings are ordered
  the same way as their numeric time values, so both are modelled as `Nat`.
  `uuidv4()` fresh-id generation is modelled by a counter `nextId` carried in
  the store state (the spec stipulates ids are unique and never reused).
  `localeCompare` for the `title` sort key is abstracted as the total
  lexicographic order on strings.
-/

/-- Keypress events delivered by the keypress module.  `other` stands for any
event that matches none of the named branches of the handlers (including
events whose `key` object is absent, which every handler ignores). -/
inductive Key
  | up
  | down
  | ret
  | esc
  | space
  | other
deriving Repr, DecidableEq

/-- Resolution payload of `showMenu` and `confirm`: the JS object with
fields `index` and `ok`. -/
structure MenuResult where
  index : Nat
  ok : Bool
deriving Repr, DecidableEq

/-- Resolution payload of `multiSelect`: the JS object with fields
`indexes` and `ok`. -/
structure MultiResult where
  indexes : List Nat
  ok : Bool
deriving Repr, DecidableEq

/-- One step of the `showMenu` keypress handler (`onKey` in `showMenu`):
either a new active index (`inl`) or a resolution (`inr`).
`up` sets `selected = Math.max(0, selected - 1)` (truncated subtraction on
`Nat`), `down` sets `selected = Math.min(options.length - 1, selected + 1)`,
`return` resolves with `ok := true`, `escape` resolves with `ok := false`,
and every other event leaves the state unchanged. -/
def menuStep (n sel : Nat) : Key → Sum Nat MenuResult
  | .up => .inl (sel - 1)
  | .down => .inl (min (n - 1) (sel + 1))
  | .ret => .inr ⟨sel, true⟩
  | .esc => .inr ⟨sel, false⟩
  | _ => .inl sel

/-- Run the `showMenu` handler over a list of key events from active index
`sel`; `none` means the prompt is still awaiting input. -/
def showMenuLoop (n sel : Nat) : List Key → Option MenuResult
  | [] => none
  | k :: ks =>
    match menuStep n sel k with
    | .inl sel2 => showMenuLoop n sel2 ks
    | .inr r => some r

/-- `showMenu(options, title)`: with a non-interactive stdin it returns
`(index := 0, ok := true)` at once; otherwise it starts at active index 0 and
processes key events. -/
def showMenu (n : Nat) (interactive : Bool) (events : List Key) : Option MenuResult :=
  if interactive then showMenuLoop n 0 events else some ⟨0, true⟩

/-- One step of the `multiSelect` keypress handler.  The state is the active
index together with the JS `Set` of toggled indexes, modelled as a duplicate-
free list in insertion order (`Set` iteration order): `add` appends, `delete`
removes the occurrence.  `space` toggles the active index, `return` resolves
with `Array.from(selected)`, `escape` resolves with an empty sequence. -/
def multiStep (n : Nat) (st : Nat × List Nat) : Key → Sum (Nat × List Nat) MultiResult
  | .up => .inl (st.1 - 1, st.2)
  | .down => .inl (min (n - 1) (st.1 + 1), st.2)
  | .space =>
    .inl (st.1, if st.2.contains st.1 then st.2.erase st.1 else st.2 ++ [st.1])
  | .ret => .inr ⟨st.2, true⟩
  | .esc => .inr ⟨[], false⟩
  | .other => .inl st

/-- Run the `multiSelect` handler over a list of key events. -/
def multiSelectLoop (n : Nat) (st : Nat × List Nat) : List Key → Option MultiResult
  | [] => none
  | k :: ks =>
    match multiStep n st k with
    | .inl st2 => multiSelectLoop n st2 ks
    | .inr r => some r

/-- `multiSelect(options, title)`: with a non-interactive stdin it returns
`(indexes := [0], ok := true)` at once; otherwise it starts at active index 0
with an empty selection set. -/
def multiSelect (n : Nat) (interactive : Bool) (events : List Key) : Option MultiResult :=
  if interactive then multiSelectLoop n (0, []) events else some ⟨[0], true⟩

/-- One step of the `confirm` keypress handler: like `showMenu` but `return`
resolves with `ok := (selected === 0)` and there is no `escape` branch (the
event falls through and is ignored). -/
def confirmStep (n sel : Nat) : Key → Sum Nat MenuResult
  | .up => .inl (sel - 1)
  | .down => .inl (min (n - 1) (sel + 1))
  | .ret => .inr ⟨sel, decide (sel = 0)⟩
  | _ => .inl sel

/-- Run the `confirm` handler over a list of key events. -/
def confirmLoop (n sel : Nat) : List Key → Option MenuResult
  | [] => none
  | k :: ks =>
    match confirmStep n sel k with
    | .inl sel2 => confirmLoop n sel2 ks
    | .inr r => some r

/-- `confirm(message, opts)`: with a non-interactive stdin it returns
`(index := 0, ok := true)` at once; otherwise it starts at active index 0. -/
def confirm (n : Nat) (interactive : Bool) (events : List Key) : Option MenuResult :=
  if interactive then confirmLoop n 0 events else some ⟨0, true⟩

/-- `waitForKey()`: resolves on the first keypress event, with no payload.
Unlike the other prompts it performs no interactivity check, so the
`interactive` flag is unused — faithful to the source, whose `waitForKey`
installs the keypress listener unconditionally. -/
def waitForKey (interactive : Bool) (events : List Key) : Option Unit :=
  match interactive, events with
  | _, [] => none
  | _, _ :: _ => some ()

/-- The closed set of priorities (`PRIORITIES` in the entry point; the keys
of `priorityOrder` in the storage module). -/
inductive Priority
  | urgent
  | high
  | medium
  | low
deriving Repr, DecidableEq

namespace TaskStorage

/-- The persisted task record, fields exactly as built by `TaskStorage.add`.
`id` is a `Nat` (see the header comment on uuid modelling), timestamps and
due dates are `Nat` time values, and `null` is `Option.none`.  (Declared
inside the `TaskStorage` namespace because the bare name `Task` is taken by
the Lean core library.) -/
structure Task where
  id : Nat
  title : String
  description : String
  priority : Priority
  category : String
  dueDate : Option Nat
  completed : Bool
  completedAt : Option Nat
  createdAt : Nat
  tags : List String
deriving Repr, DecidableEq

/-- The `taskData` argument of `TaskStorage.add`; absent JS properties are
`none`. -/
structure AddData where
  title : String := ""
  description : Option String := none
  priority : Option Priority := none
  category : Option String := none
  dueDate : Option Nat := none
  tags : Option (List String) := none
deriving Repr, DecidableEq

/-- The `updates` argument of `TaskStorage.update`: a JS object whose spread
`{...task, ...updates}` replaces exactly the supplied fields.  Any Task
field may be supplied, including `id` and `createdAt` — the source does not
restrict the payload. -/
structure Updates where
  id : Option Nat := none
  title : Option String := none
  description : Option String := none
  priority : Option Priority := none
  category : Option String := none
  dueDate : Option (Option Nat) := none
  completed : Option Bool := none
  completedAt : Option (Option Nat) := none
  createdAt : Option Nat := none
  tags : Option (List String) := none
deriving Repr, DecidableEq

/-- JS `s || dflt` on an optional string: `undefined`, `null` and the empty
string are falsy and fall back to the default. -/
def jsOr (s : Option String) (dflt : String) : String :=
  match s with
  | none => dflt
  | some v => if v = "" then dflt else v

/-- The shallow merge `{...task, ...updates}` of `TaskStorage.update`. -/
def applyUpdates (t : Task) (u : Updates) : Task :=
  { id := u.id.getD t.id
    title := u.title.getD t.title
    description := u.description.getD t.description
    priority := u.priority.getD t.priority
    category := u.category.getD t.category
    dueDate := u.dueDate.getD t.dueDate
    completed := u.completed.getD t.completed
    completedAt := u.completedAt.getD t.completedAt
    createdAt := u.createdAt.getD t.createdAt
    tags := u.tags.getD t.tags }

/-- `TaskStorage.update(id, updates)` on the loaded list: `findIndex` locates
the first task with the id; if found it is replaced by the shallow merge and
the pair (returned task, saved list) is produced; otherwise `(null, unchanged
list)`. -/
def update (l : List Task) (id : Nat) (u : Updates) : Option Task × List Task :=
  match l with
  | [] => (none, [])
  | t :: ts =>
    if t.id = id then
      (some (applyUpdates t u), applyUpdates t u :: ts)
    else
      let r := update ts id u
      (r.1, t :: r.2)

/-- `TaskStorage.delete(id)`: keeps the tasks whose id differs, saves, and
reports whether the list shrank. -/
def delete (l : List Task) (id : Nat) : Bool × List Task :=
  let filtered := l.filter (fun t => decide (t.id ≠ id))
  (decide (filtered.length < l.length), filtered)

/-- `TaskStorage.toggleComplete(id)` on the loaded list: `find` locates the
first task with the id; if found, `completed` is flipped and `completedAt`
becomes the current time when the task is now completed and `null`
otherwise. -/
def toggleComplete (l : List Task) (id : Nat) (now : Nat) : Option Task × List Task :=
  match l with
  | [] => (none, [])
  | t :: ts =>
    if t.id = id then
      let t2 : Task :=
        { t with
          completed := !t.completed
          completedAt := if !t.completed then some now else none }
      (some t2, t2 :: ts)
    else
      let r := toggleComplete ts id now
      (r.1, t :: r.2)

/-- `TaskStorage.clearCompleted()`: keeps the pending tasks and returns how
many tasks were dropped. -/
def clearCompleted (l : List Task) : Nat × List Task :=
  let pending := l.filter (fun t => !t.completed)
  (l.length - pending.length, pending)

/-- The sort keys accepted by `TaskStorage.sort`; any other string hits the
`default` branch, whose comparison is constantly 0. -/
inductive SortKey
  | priority
  | due
  | date
  | title
  | otherKey
deriving Repr, DecidableEq

/-- `priorityOrder` of `TaskStorage.sort`. -/
def priorityOrder : Priority → Nat
  | .urgent => 0
  | .high => 1
  | .medium => 2
  | .low => 3

/-- The comparison callback of `TaskStorage.sort` (negative: `a` first). -/
def cmp (key : SortKey) (a b : Task) : Int :=
  match key with
  | .priority => (priorityOrder a.priority : Int) - (priorityOrder b.priority : Int)
  | .due =>
    match a.dueDate, b.dueDate with
    | none, none => 0
    | none, some _ => 1
    | some _, none => -1
    | some x, some y => (x : Int) - (y : Int)
  | .date => (a.createdAt : Int) - (b.createdAt : Int)
  | .title => if a.title < b.title then -1 else if b.title < a.title then 1 else 0
  | .otherKey => 0

/-- `TaskStorage.sort(tasks, sortBy, reverse)`: a stable sort of a copy of
the input by the comparison above (JS `Array.prototype.sort` is stable, as is
`List.insertionSort`), then a full reversal when `reverse` is set. -/
def sort (tasks : List Task) (key : SortKey) (reverse : Bool) : List Task :=
  let sorted := List.insertionSort (fun a b => cmp key a b ≤ 0) tasks
  if reverse then sorted.reverse else sorted

/-- `Math.round` on an exact rational: round half toward positive
infinity. -/
def jsRound (x : ℚ) : ℤ := ⌊x + 1 / 2⌋

/-- The record returned by `TaskStorage.getStats()`.  `byPriority` and
`categories` are count maps, modelled as functions. -/
structure Stats where
  total : Nat
  completed : Nat
  pending : Nat
  completionRate : ℤ
  byPriority : Priority → Nat
  categories : String → Nat

/-- `TaskStorage.getStats()` on the loaded list. -/
def getStats (tasks : List Task) : Stats :=
  let total := tasks.length
  let completed := (tasks.filter (fun t => t.completed)).length
  { total := total
    completed := completed
    pending := total - completed
    completionRate :=
      if 0 < total then jsRound (((completed : ℚ) / (total : ℚ)) * 100) else 0
    byPriority := fun p => (tasks.filter (fun t => decide (t.priority = p))).length
    categories := fun c => (tasks.filter (fun t => decide (t.category = c))).length }

/-- `TaskStorage.add(taskData)` needs fresh-id state; the store state is the
task list plus the counter of the uuid model. -/
structure StoreState where
  tasks : List Task
  nextId : Nat
deriving Repr, DecidableEq

/-- `TaskStorage.add(taskData)`: builds the record with a fresh id, the
defaults of the source (`||` fallbacks), `completed := false`,
`completedAt := null`, `createdAt := now`, appends and saves. -/
def add (s : StoreState) (d : AddData) (now : Nat) : Task × StoreState :=
  let task : Task :=
    { id := s.nextId
      title := d.title
      description := d.description.getD ""
      priority := d.priority.getD .medium
      category := jsOr d.category ("General")
      dueDate := d.dueDate
      completed := false
      completedAt := none
      createdAt := now
      tags := d.tags.getD [] }
  (task, { tasks := s.tasks ++ [task], nextId := s.nextId + 1 })

/-- One store operation, with its external inputs (timestamps, payloads)
made explicit. -/
inductive Op
  | add (d : AddData) (now : Nat)
  | update (id : Nat) (u : Updates)
  | delete (id : Nat)
  | toggle (id : Nat) (now : Nat)

/-- Apply one operation to the store state. -/
def applyOp (s : StoreState) : Op → StoreState
  | .add d now => (add s d now).2
  | .update id u => { s with tasks := (update s.tasks id u).2 }
  | .delete id => { s with tasks := (delete s.tasks id).2 }
  | .toggle id now => { s with tasks := (toggleComplete s.tasks id now).2 }

/-- Run a sequence of operations. -/
def runOps (s : StoreState) (ops : List Op) : StoreState :=
  ops.foldl applyOp s

/-- A pending task with a due date, used as concrete test data. -/
def sampleA : Task :=
  { id := 0, title := "a", description := "", priority := .medium,
    category := "General", dueDate := some 1, completed := false,
    completedAt := none, createdAt := 0, tags := [] }

/-- A pending task without a due date, used as concrete test data. -/
def sampleB : Task :=
  { id := 1, title := "b", description := "", priority := .high,
    category := "General", dueDate := none, completed := false,
    completedAt := none, createdAt := 0, tags := [] }

/-- A completed task (completed at time 5), used as concrete test data. -/
def sampleDone : Task :=
  { id := 2, title := "c", description := "", priority := .low,
    category := "General", dueDate := none, completed := true,
    completedAt := some 5, createdAt := 0, tags := [] }

end TaskStorage

/-- Filtering commutes with ordered insertion when the inserted element is
`r`-below every element the predicate keeps: the kept element order is
untouched and the inserted element, if kept, lands in front. -/
theorem filter_orderedInsert {α} (r : α → α → Prop) [DecidableRel r] (p : α → Bool)
    (x : α) (l : List α) (h : ∀ y, p x = true → p y = true → r x y) :
    (l.orderedInsert r x).filter p =
      if p x then x :: l.filter p else l.filter p := by
  induction l with
  | nil =>
    cases hpx : p x <;> simp [List.orderedInsert, hpx]
  | cons y ys ih =>
    by_cases hr : r x y
    · rw [List.orderedInsert, if_pos hr]
      cases hpx : p x <;> simp [List.filter_cons, hpx]
    · rw [List.orderedInsert, if_neg hr]
      by_cases hpx : p x
      · have hpy : p y = false := by
          cases hpy : p y
          · rfl
          · exact absurd (h y hpx hpy) hr
        simp [List.filter_cons, hpx, hpy, ih]
      · have hpx2 : p x = false := by simpa using hpx
        simp [List.filter_cons, hpx2, ih]

/-- A stable sort leaves the subsequence of elements kept by a predicate
unchanged whenever any two kept elements are `r`-tied. -/
theorem filter_insertionSort {α} (r : α → α → Prop) [DecidableRel r] (p : α → Bool)
    (hp : ∀ a b, p a = true → p b = true → r a b) (l : List α) :
    (List.insertionSort r l).filter p = l.filter p := by
  induction l with
  | nil => rfl
  | cons x xs ih =>
    rw [List.insertionSort, filter_orderedInsert r p x _ (fun y hx hy => hp x y hx hy),
      ih, List.filter_cons]

/-- Splitting a list by a Boolean predicate preserves its length. -/
theorem length_filter_add_length_filter_not {α} (p : α → Bool) (l : List α) :
    (l.filter p).length + (l.filter (fun a => !(p a))).length = l.length := by
  induction l with
  | nil => rfl
  | cons x xs ih =>
    cases hx : p x <;> simp [List.filter_cons, hx] <;> omega

namespace TaskStorage

/-- Claim C1 (corrected): the single-select, multi-select and binary-confirm
prompts resolve immediately with their deterministic defaults when stdin is
not an interactive terminal, for every possible stream of key events; the
pause-for-any-key prompt, by contrast, performs no interactivity check and
resolves exactly when a keypress event arrives, whatever the interactivity
flag. -/
theorem claim1_amended :
    (∀ n events, showMenu n false events = some ⟨0, true⟩) ∧
    (∀ n events, multiSelect n false events = some ⟨[0], true⟩) ∧
    (∀ n events, confirm n false events = some ⟨0, true⟩) ∧
    (∀ interactive events, waitForKey interactive events = none ↔ events = []) := by
  refine ⟨fun n events => rfl, fun n events => rfl, fun n events => rfl, ?_⟩
  intro interactive events
  cases events <;> simp [waitForKey]

/-- Claim C1 (counterexample): `waitForKey` is a prompt primitive, yet with a
non-interactive stdin and no pending key events it does not resolve at all,
and it resolves only by consuming a key event — refuting the claim that
every prompt primitive resolves immediately without consuming input when the
input stream is not a terminal. -/
theorem claim1_counterexample :
    waitForKey false [] = none ∧ waitForKey false [Key.ret] = some () :=
  ⟨rfl, rfl⟩

/-- Claim C5 (confirmed): in the interactive single-select prompt, Up and
Down move the active index by one, clamped to the range of options with no
wraparound, the confirm key resolves with the active index and
`ok := true`, the cancel key resolves with the active index and
`ok := false`, any other key leaves the state unchanged, and with three
options the event stream down, down, up, confirm resolves with index 1
accepted. -/
theorem claim5_showMenu (n sel : Nat) (hn : 0 < n) (hsel : sel < n) :
    (menuStep n sel .up = .inl (sel - 1) ∧ sel - 1 < n ∧ (sel = 0 → sel - 1 = 0)) ∧
    (menuStep n sel .down = .inl (min (n - 1) (sel + 1)) ∧
      min (n - 1) (sel + 1) < n ∧ (sel = n - 1 → min (n - 1) (sel + 1) = sel)) ∧
    menuStep n sel .ret = .inr ⟨sel, true⟩ ∧
    menuStep n sel .esc = .inr ⟨sel, false⟩ ∧
    (menuStep n sel .space = .inl sel ∧ menuStep n sel .other = .inl sel) ∧
    showMenu 3 true [.down, .down, .up, .ret] = some ⟨1, true⟩ := by
  refine ⟨⟨rfl, by omega, by omega⟩, ⟨rfl, by omega, by omega⟩, rfl, rfl, ⟨rfl, rfl⟩, ?_⟩
  rfl

/-- Claim C5 witness: the clamped-navigation example evaluated concretely by
instantiating the theorem at three options. -/
theorem claim5_witness :
    showMenu 3 true [.down, .down, .up, .ret] = some ⟨1, true⟩ :=
  (claim5_showMenu 3 0 (by decide) (by decide)).2.2.2.2.2

/-- Claim C10 (confirmed): the multi-select prompt returns the toggled
indexes in JS `Set` insertion order, not ascending order: toggling index 1
first and index 0 second yields the sequence 1 then 0. -/
theorem claim10_multiSelect_insertion_order :
    multiSelect 3 true [.down, .space, .up, .space, .ret] =
      some ⟨[1, 0], true⟩ := by
  decide

/-- Claim C8 (confirmed): `clearCompleted` keeps exactly the pending tasks in
their original order, returns exactly the number of completed tasks it
removed, and a second immediate call removes nothing and returns 0. -/
theorem claim8_clearCompleted (l : List Task) :
    (clearCompleted l).2 = l.filter (fun t => !t.completed) ∧
    (∀ t ∈ l, t.completed = false → t ∈ (clearCompleted l).2) ∧
    (∀ t ∈ (clearCompleted l).2, t.completed = false) ∧
    (clearCompleted l).1 = (l.filter (fun t => t.completed)).length ∧
    (clearCompleted ((clearCompleted l).2)).1 = 0 := by
  refine ⟨rfl, ?_, ?_, ?_, ?_⟩
  · intro t ht hc
    simp [clearCompleted, List.mem_filter, ht, hc]
  · intro t ht
    have := (List.mem_filter.mp ht).2
    simpa using this
  · have h := length_filter_add_length_filter_not (fun t : Task => t.completed) l
    simp only [clearCompleted]
    omega
  · have hself : (l.filter (fun t => !t.completed)).filter (fun t => !t.completed) =
        l.filter (fun t => !t.completed) := by
      refine List.filter_eq_self.mpr ?_
      intro a ha
      exact (List.mem_filter.mp ha).2
    simp [clearCompleted, hself]

/-- Claim C8 witness: a concrete pending task is retained by
`clearCompleted`, by instantiating the theorem. -/
theorem claim8_witness :
    sampleA ∈ (clearCompleted [sampleDone, sampleA]).2 :=
  (claim8_clearCompleted [sampleDone, sampleA]).2.1 sampleA (by decide) rfl

/-- Claim C9 helper: `update` on an absent id returns `null` and leaves the
list unchanged. -/
theorem update_not_found {l : List Task} {id : Nat} {u : Updates}
    (h : ∀ t ∈ l, t.id ≠ id) : update l id u = (none, l) := by
  induction l with
  | nil => rfl
  | cons t ts ih =>
    have ht : ¬ t.id = id := h t (List.mem_cons_self t ts)
    have hts := ih (fun x hx => h x (List.mem_cons_of_mem t hx))
    simp [update, ht, hts]

/-- Claim C9 helper: `toggleComplete` on an absent id returns `null` and
leaves the list unchanged. -/
theorem toggleComplete_not_found {l : List Task} {id now : Nat}
    (h : ∀ t ∈ l, t.id ≠ id) : toggleComplete l id now = (none, l) := by
  induction l with
  | nil => rfl
  | cons t ts ih =>
    have ht : ¬ t.id = id := h t (List.mem_cons_self t ts)
    have hts := ih (fun x hx => h x (List.mem_cons_of_mem t hx))
    simp [toggleComplete, ht, hts]

/-- Claim C9 (confirmed): on an id absent from the collection, `update`
returns `null`, `delete` returns `false`, `toggleComplete` returns `null`,
and in each case the stored collection is unchanged. -/
theorem claim9_not_found (l : List Task) (id now : Nat) (u : Updates)
    (h : ∀ t ∈ l, t.id ≠ id) :
    update l id u = (none, l) ∧
    delete l id = (false, l) ∧
    toggleComplete l id now = (none, l) := by
  refine ⟨update_not_found h, ?_, toggleComplete_not_found h⟩
  have hfilter : l.filter (fun t => decide (t.id ≠ id)) = l :=
    List.filter_eq_self.mpr (fun t ht => by simpa using h t ht)
  simp only [delete, hfilter]
  simp

/-- Claim C9 witness: the not-found contract evaluated on a concrete
one-task store and a foreign id, by instantiating the theorem. -/
theorem claim9_witness :
    update [sampleA] 99 { } = (none, [sampleA]) ∧
    delete [sampleA] 99 = (false, [sampleA]) ∧
    toggleComplete [sampleA] 99 7 = (none, [sampleA]) :=
  claim9_not_found [sampleA] 99 7 { } (by decide)

/-- Claim C7 (confirmed): `getStats` satisfies `completed + pending = total`,
`completionRate = round(100 * completed / total)` when the collection is
non-empty and 0 when it is empty, and `completed` counts exactly the tasks
whose completed flag is set. -/
theorem claim7_getStats (l : List Task) :
    (getStats l).completed + (getStats l).pending = (getStats l).total ∧
    (0 < (getStats l).total →
      (getStats l).completionRate =
        jsRound ((100 * ((getStats l).completed : ℚ)) / ((getStats l).total : ℚ))) ∧
    ((getStats l).total = 0 → (getStats l).completionRate = 0) ∧
    (getStats l).completed = (l.filter (fun t => t.completed)).length := by
  refine ⟨?_, ?_, ?_, rfl⟩
  · have hle := List.length_filter_le (fun t : Task => t.completed) l
    simp only [getStats]
    omega
  · intro hpos
    have hpos2 : 0 < l.length := hpos
    simp only [getStats, if_pos hpos2]
    congr 1
    ring
  · intro h0
    have h02 : l.length = 0 := h0
    simp [getStats, h02]

/-- Claim C7 witness: the statistics contract evaluated on a concrete
two-task store (one task completed), by instantiating the theorem. -/
theorem claim7_witness :
    (getStats [sampleDone, sampleA]).completionRate =
      jsRound ((100 * ((getStats [sampleDone, sampleA]).completed : ℚ)) /
        ((getStats [sampleDone, sampleA]).total : ℚ)) :=
  (claim7_getStats [sampleDone, sampleA]).2.1 (by decide)

/-- The priority comparison is nonpositive exactly when the first task is at
least as urgent. -/
theorem cmp_priority_le_iff (a b : Task) :
    cmp .priority a b ≤ 0 ↔ priorityOrder a.priority ≤ priorityOrder b.priority := by
  simp only [cmp]
  omega

/-- Claim C6 (confirmed): `sort` with the priority key returns a permutation of
the input (the input itself, an immutable value in this embedding, is left
untouched and the result is a copy), ordered so that urgent precedes high
precedes medium precedes low, and the sort is stable: the tasks of any fixed
priority appear exactly as they did in the input. -/
theorem claim6_sort_priority (tasks : List Task) :
    (sort tasks .priority false).Perm tasks ∧
    (sort tasks .priority false).Pairwise
      (fun a b => priorityOrder a.priority ≤ priorityOrder b.priority) ∧
    ∀ p, (sort tasks .priority false).filter (fun t => decide (t.priority = p)) =
      tasks.filter (fun t => decide (t.priority = p)) := by
  have hsort : sort tasks .priority false =
      List.insertionSort (fun a b => cmp .priority a b ≤ 0) tasks := rfl
  refine ⟨?_, ?_, ?_⟩
  · rw [hsort]
    exact List.perm_insertionSort _ tasks
  · rw [hsort]
    haveI : IsTotal Task (fun a b => cmp .priority a b ≤ 0) :=
      ⟨fun a b => by simp only [cmp_priority_le_iff]; omega⟩
    haveI : IsTrans Task (fun a b => cmp .priority a b ≤ 0) :=
      ⟨fun a b c hab hbc => by
        simp only [cmp_priority_le_iff] at hab hbc ⊢
        omega⟩
    exact (List.sorted_insertionSort _ tasks).imp
      (fun hab => (cmp_priority_le_iff _ _).mp hab)
  · intro p
    rw [hsort]
    refine filter_insertionSort _ _ (fun a b ha hb => ?_) tasks
    have ha2 : a.priority = p := by simpa using ha
    have hb2 : b.priority = p := by simpa using hb
    show cmp .priority a b ≤ 0
    rw [cmp_priority_le_iff, ha2, hb2]

/-- Claim C6 witness: the stability equation instantiated on a concrete
three-task store at priority high. -/
theorem claim6_witness :
    (sort [sampleA, sampleB, sampleDone] .priority false).filter
        (fun t => decide (t.priority = Priority.high)) =
      [sampleA, sampleB, sampleDone].filter
        (fun t => decide (t.priority = Priority.high)) :=
  (claim6_sort_priority [sampleA, sampleB, sampleDone]).2.2 Priority.high

/-- Claim C2 (corrected, amended): with `reverse = false`, `sort(tasks,
due key is a permutation of the input in which every task lacking a due date
comes after every dated task, dated tasks appear in ascending date order,
undated tasks keep their relative input order and compare equal under the
comparator; with `reverse = true` the source reverses that entire order, so
the undated block comes first. -/
theorem claim2_amended (tasks : List Task) :
    (sort tasks .due false).Perm tasks ∧
    (sort tasks .due false).Pairwise
      (fun a b => (a.dueDate = none → b.dueDate = none) ∧
        ∀ x y, a.dueDate = some x → b.dueDate = some y → x ≤ y) ∧
    ((sort tasks .due false).filter (fun t => decide (t.dueDate = none)) =
      tasks.filter (fun t => decide (t.dueDate = none))) ∧
    (∀ a b : Task, a.dueDate = none → b.dueDate = none → cmp .due a b = 0) ∧
    sort tasks .due true = (sort tasks .due false).reverse := by
  have hsort : sort tasks .due false =
      List.insertionSort (fun a b => cmp .due a b ≤ 0) tasks := rfl
  refine ⟨?_, ?_, ?_, ?_, rfl⟩
  · rw [hsort]
    exact List.perm_insertionSort _ tasks
  · rw [hsort]
    haveI : IsTotal Task (fun a b => cmp .due a b ≤ 0) :=
      ⟨fun a b => by
        rcases ha : a.dueDate with _ | x <;> rcases hb : b.dueDate with _ | y <;>
          (simp only [cmp, ha, hb]; omega)⟩
    haveI : IsTrans Task (fun a b => cmp .due a b ≤ 0) :=
      ⟨fun a b c hab hbc => by
        rcases ha : a.dueDate with _ | x <;> rcases hb : b.dueDate with _ | y <;>
          rcases hc : c.dueDate with _ | z <;>
          (simp only [cmp, ha, hb, hc] at hab hbc ⊢; omega)⟩
    refine (List.sorted_insertionSort _ tasks).imp (fun {a b} hab => ?_)
    constructor
    · intro ha
      rcases hb : b.dueDate with _ | y
      · rfl
      · exfalso
        simp [cmp, ha, hb] at hab
    · intro x y hax hby
      simp [cmp, hax, hby] at hab
      omega
  · rw [hsort]
    refine filter_insertionSort _ _ (fun a b ha hb => ?_) tasks
    have ha2 : a.dueDate = none := by simpa using ha
    have hb2 : b.dueDate = none := by simpa using hb
    show cmp .due a b ≤ 0
    simp [cmp, ha2, hb2]
  · intro a b ha hb
    simp [cmp, ha, hb]

/-- Claim C2 witness: the reversal equation instantiated on a concrete
two-task store. -/
theorem claim2_witness :
    sort [sampleA, sampleB] .due true = (sort [sampleA, sampleB] .due false).reverse :=
  (claim2_amended [sampleA, sampleB]).2.2.2.2

/-- Claim C2 (counterexample): with `reverse = true` the claim fails — the
undated task `sampleB` is placed before the dated task `sampleA`, because
the source reverses the whole sorted order rather than keeping the undated
block last. -/
theorem claim2_counterexample :
    sort [sampleA, sampleB] .due true = [sampleB, sampleA] ∧
    sampleB.dueDate = none ∧ sampleA.dueDate = some 1 := by
  decide

/-- Claim C3 (corrected, amended): toggling completion twice always restores
the `completed` flag of every task; and when the tasks carrying the toggled id
were pending with a null `completedAt` (the data-model invariant for pending
tasks), the double toggle restores the whole store exactly.  (For an
initially-completed task the second toggle stamps a fresh `completedAt`, so
the original timestamp is not restored — see the counterexample.) -/
theorem claim3_amended (l : List Task) (id t1 t2 : Nat) :
    ((∀ t ∈ l, t.id = id → t.completed = false ∧ t.completedAt = none) →
      (toggleComplete (toggleComplete l id t1).2 id t2).2 = l) ∧
    (toggleComplete (toggleComplete l id t1).2 id t2).2.map Task.completed =
      l.map Task.completed := by
  constructor
  · intro h
    induction l with
    | nil => rfl
    | cons t ts ih =>
      by_cases hid : t.id = id
      · obtain ⟨hc, hca⟩ := h t (List.mem_cons_self t ts) hid
        simp [toggleComplete, hid, hc, hca]
        rw [← hid, ← hc, ← hca]
      · have hts := ih (fun x hx hxid => h x (List.mem_cons_of_mem t hx) hxid)
        simp [toggleComplete, hid, hts]
  · induction l with
    | nil => rfl
    | cons t ts ih =>
      by_cases hid : t.id = id
      · simp [toggleComplete, hid, Bool.not_not]
      · simp [toggleComplete, hid, ih]

/-- Claim C3 witness: the restoration equation instantiated on a concrete
one-task store holding a pending task, by instantiating the theorem. -/
theorem claim3_witness :
    (toggleComplete (toggleComplete [sampleA] 0 7).2 0 9).2 = [sampleA] :=
  (claim3_amended [sampleA] 0 7 9).1 (by decide)

/-- Claim C3 (counterexample): for a task that is already completed (here at
time 5), toggling twice (at times 7 and 9) brings `completed` back but sets
`completedAt` to the time of the second toggle, 9 — not the original 5 — so
the task is not returned to its original `completedAt` value. -/
theorem claim3_counterexample :
    (toggleComplete (toggleComplete [sampleDone] 2 7).2 2 9).2.map Task.completedAt =
      [some 9] ∧
    [sampleDone].map Task.completedAt = [some 5] := by
  decide

/-- The well-formedness invariant of a store: every id is below the fresh-id
counter and ids are pairwise distinct. -/
def WF (s : StoreState) : Prop :=
  (∀ t ∈ s.tasks, t.id < s.nextId) ∧ s.tasks.Pairwise (fun a b => a.id ≠ b.id)

/-- An operation whose payload leaves identity fields alone: an `update`
must not supply `id` or `createdAt` (true of every call site in the
repository); the other operations cannot touch them at all. -/
def GoodOp : Op → Prop
  | .update _ u => u.id = none ∧ u.createdAt = none
  | _ => True

/-- An update whose payload omits `id` and `createdAt` relates the old and
new lists pointwise by equal ids and creation times. -/
theorem update_forall2 (id : Nat) {u : Updates} (hid : u.id = none)
    (hca : u.createdAt = none) (l : List Task) :
    List.Forall₂ (fun a b => a.id = b.id ∧ a.createdAt = b.createdAt)
      l (update l id u).2 := by
  induction l with
  | nil => exact List.Forall₂.nil
  | cons t ts ih =>
    by_cases h : t.id = id
    · simp only [update, if_pos h]
      refine List.Forall₂.cons ⟨?_, ?_⟩ (List.forall₂_same.mpr (fun x _ => ⟨rfl, rfl⟩))
      · simp [applyUpdates, hid]
      · simp [applyUpdates, hca]
    · simp only [update, if_neg h]
      exact List.Forall₂.cons ⟨rfl, rfl⟩ ih

/-- A completion toggle relates the old and new lists pointwise by equal ids
and creation times. -/
theorem toggle_forall2 (id now : Nat) (l : List Task) :
    List.Forall₂ (fun a b => a.id = b.id ∧ a.createdAt = b.createdAt)
      l (toggleComplete l id now).2 := by
  induction l with
  | nil => exact List.Forall₂.nil
  | cons t ts ih =>
    by_cases h : t.id = id
    · simp only [toggleComplete, if_pos h]
      exact List.Forall₂.cons ⟨rfl, rfl⟩ (List.forall₂_same.mpr (fun x _ => ⟨rfl, rfl⟩))
    · simp only [toggleComplete, if_neg h]
      exact List.Forall₂.cons ⟨rfl, rfl⟩ ih

/-- Pointwise id-preservation gives equal id projections. -/
theorem forall2_map_id {l l2 : List Task}
    (h : List.Forall₂ (fun a b => a.id = b.id ∧ a.createdAt = b.createdAt) l l2) :
    l2.map Task.id = l.map Task.id := by
  induction h with
  | nil => rfl
  | cons hab htail ih => simp [ih, hab.1]

/-- Pointwise id-preservation lets every new task be traced to an old task
with the same id and creation time. -/
theorem forall2_mem_exists {l l2 : List Task}
    (h : List.Forall₂ (fun a b => a.id = b.id ∧ a.createdAt = b.createdAt) l l2) :
    ∀ t2 ∈ l2, ∃ t ∈ l, t.id = t2.id ∧ t.createdAt = t2.createdAt := by
  induction h with
  | nil =>
    intro t2 ht2
    cases ht2
  | @cons a b l1 l2 hab htail ih =>
    intro t2 ht2
    rcases List.mem_cons.mp ht2 with rfl | h2
    · exact ⟨a, List.mem_cons_self a l1, hab.1, hab.2⟩
    · obtain ⟨t, ht, h3⟩ := ih t2 h2
      exact ⟨t, List.mem_cons_of_mem a ht, h3⟩

/-- In a list of pairwise-distinct ids, the id determines the task. -/
theorem eq_of_mem_pairwise_ne {l : List Task}
    (hp : l.Pairwise (fun a b => a.id ≠ b.id)) {a b : Task}
    (ha : a ∈ l) (hb : b ∈ l) (hid : a.id = b.id) : a = b := by
  induction l with
  | nil => cases ha
  | cons x xs ih =>
    obtain ⟨hx, hxs⟩ := List.pairwise_cons.mp hp
    rcases List.mem_cons.mp ha with rfl | ha2
    · rcases List.mem_cons.mp hb with rfl | hb2
      · rfl
      · exact absurd hid (hx b hb2)
    · rcases List.mem_cons.mp hb with rfl | hb2
      · exact absurd hid.symm (hx a ha2)
      · exact ih hxs ha2 hb2

/-- Every identity-preserving operation keeps the store well formed, never
decreases the fresh-id counter, and every surviving task whose id predates
the step traces back to an old task with the same id and creation time. -/
theorem applyOp_preserves (s : StoreState) (op : Op) (hwf : WF s) (hg : GoodOp op) :
    WF (applyOp s op) ∧ s.nextId ≤ (applyOp s op).nextId ∧
    ∀ t2 ∈ (applyOp s op).tasks, t2.id < s.nextId →
      ∃ t ∈ s.tasks, t.id = t2.id ∧ t.createdAt = t2.createdAt := by
  obtain ⟨hbound, huniq⟩ := hwf
  cases op with
  | add d now =>
    simp only [applyOp, add]
    refine ⟨⟨?_, ?_⟩, Nat.le_succ _, ?_⟩
    · intro t ht
      rcases List.mem_append.mp ht with h1 | h2
      · exact Nat.lt_succ_of_lt (hbound t h1)
      · rcases List.mem_singleton.mp h2 with rfl
        exact Nat.lt_succ_self _
    · refine List.pairwise_append.mpr ⟨huniq, List.pairwise_singleton _ _, ?_⟩
      intro a ha b hb
      rcases List.mem_singleton.mp hb with rfl
      exact Nat.ne_of_lt (hbound a ha)
    · intro t2 ht2 hlt
      rcases List.mem_append.mp ht2 with h1 | h2
      · exact ⟨t2, h1, rfl, rfl⟩
      · rcases List.mem_singleton.mp h2 with rfl
        exact absurd hlt (Nat.lt_irrefl _)
  | update id u =>
    obtain ⟨huid, huca⟩ := hg
    have hf := update_forall2 id huid huca s.tasks
    have hmap := forall2_map_id hf
    have hex := forall2_mem_exists hf
    simp only [applyOp]
    refine ⟨⟨?_, ?_⟩, Nat.le_refl _, ?_⟩
    · intro t2 ht2
      obtain ⟨t, ht, hid2, _⟩ := hex t2 ht2
      exact hid2 ▸ hbound t ht
    · have hmapped : ((update s.tasks id u).2.map Task.id).Pairwise Ne := by
        rw [hmap]
        exact List.pairwise_map.mpr huniq
      exact List.pairwise_map.mp hmapped
    · intro t2 ht2 _
      exact hex t2 ht2
  | delete id =>
    simp only [applyOp, delete]
    refine ⟨⟨?_, ?_⟩, Nat.le_refl _, ?_⟩
    · intro t ht
      exact hbound t (List.mem_of_mem_filter ht)
    · exact List.Pairwise.sublist (List.filter_sublist _) huniq
    · intro t2 ht2 _
      exact ⟨t2, List.mem_of_mem_filter ht2, rfl, rfl⟩
  | toggle id now =>
    have hf := toggle_forall2 id now s.tasks
    have hmap := forall2_map_id hf
    have hex := forall2_mem_exists hf
    simp only [applyOp]
    refine ⟨⟨?_, ?_⟩, Nat.le_refl _, ?_⟩
    · intro t2 ht2
      obtain ⟨t, ht, hid2, _⟩ := hex t2 ht2
      exact hid2 ▸ hbound t ht
    · have hmapped : ((toggleComplete s.tasks id now).2.map Task.id).Pairwise Ne := by
        rw [hmap]
        exact List.pairwise_map.mpr huniq
      exact List.pairwise_map.mp hmapped
    · intro t2 ht2 _
      exact hex t2 ht2

/-- `applyOp_preserves` composed over a whole operation sequence. -/
theorem runOps_preserves (s : StoreState) (ops : List Op) (hwf : WF s)
    (hg : ∀ op ∈ ops, GoodOp op) :
    WF (runOps s ops) ∧ s.nextId ≤ (runOps s ops).nextId ∧
    ∀ t2 ∈ (runOps s ops).tasks, t2.id < s.nextId →
      ∃ t ∈ s.tasks, t.id = t2.id ∧ t.createdAt = t2.createdAt := by
  induction ops generalizing s with
  | nil => exact ⟨hwf, Nat.le_refl _, fun t2 h2 _ => ⟨t2, h2, rfl, rfl⟩⟩
  | cons op rest ih =>
    have hstep := applyOp_preserves s op hwf (hg op (List.mem_cons_self op rest))
    have hrest := ih (applyOp s op) hstep.1
      (fun o ho => hg o (List.mem_cons_of_mem op ho))
    have hruns : runOps s (op :: rest) = runOps (applyOp s op) rest := rfl
    rw [hruns]
    refine ⟨hrest.1, Nat.le_trans hstep.2.1 hrest.2.1, ?_⟩
    intro t2 ht2 hlt
    obtain ⟨tm, htm, htmid, htmca⟩ :=
      hrest.2.2 t2 ht2 (Nat.lt_of_lt_of_le hlt hstep.2.1)
    obtain ⟨t, ht, htid, htca⟩ := hstep.2.2 tm htm (htmid ▸ hlt)
    exact ⟨t, ht, htid.trans htmid, htca.trans htmca⟩

/-- Claim C4 (corrected, amended): for every operation sequence whose update
payloads do not supply the `id` or `createdAt` fields (as at every call site
of the repository), starting from a well-formed store, task ids stay
pairwise distinct and the `createdAt` of a stored task is never altered.  (An
`update` payload carrying those fields breaks the claim — see the
counterexample.) -/
theorem claim4_amended (s : StoreState) (ops : List Op) (hwf : WF s)
    (hg : ∀ op ∈ ops, GoodOp op) :
    (runOps s ops).tasks.Pairwise (fun a b => a.id ≠ b.id) ∧
    ∀ t2 ∈ (runOps s ops).tasks, ∀ t1 ∈ s.tasks, t2.id = t1.id →
      t2.createdAt = t1.createdAt := by
  have h := runOps_preserves s ops hwf hg
  refine ⟨h.1.2, ?_⟩
  intro t2 h2 t1 h1 hid
  have hb : t1.id < s.nextId := hwf.1 t1 h1
  obtain ⟨t, ht, htid, htca⟩ := h.2.2 t2 h2 (hid ▸ hb)
  have heq : t = t1 := eq_of_mem_pairwise_ne hwf.2 ht h1 (htid.trans hid)
  rw [← htca, heq]

/-- Task data used by the concrete C4 runs. -/
def d0 : AddData := { title := "a" }

/-- An update payload supplying `createdAt`, as the shallow merge of the source
permits. -/
def uBad : Updates := { createdAt := some 99 }

/-- Claim C4 witness: id uniqueness after a concrete add-then-toggle run
from the empty store, by instantiating the theorem. -/
theorem claim4_witness :
    (runOps ⟨[], 0⟩ [Op.add d0 10, Op.toggle 0 11]).tasks.Pairwise
      (fun a b => a.id ≠ b.id) :=
  (claim4_amended ⟨[], 0⟩ [Op.add d0 10, Op.toggle 0 11]
    ⟨fun t ht => absurd ht (List.not_mem_nil t), List.Pairwise.nil⟩
    (fun op hop => by
      rcases List.mem_cons.mp hop with rfl | hop2
      · trivial
      · rcases List.mem_cons.mp hop2 with rfl | hop3
        · trivial
        · cases hop3)).1

/-- Claim C4 (counterexample): `update` is a shallow merge of arbitrary
fields, so a sequence of one `add` (at time 10) and one `update` whose
payload carries `createdAt := 99` alters the `createdAt` of the task — refuting
the claim that `createdAt` is never altered under every add/update/delete/
toggle sequence. -/
theorem claim4_counterexample :
    (runOps ⟨[], 0⟩ [Op.add d0 10]).tasks.map Task.createdAt = [10] ∧
    (runOps ⟨[], 0⟩ [Op.add d0 10, Op.update 0 uBad]).tasks.map Task.createdAt =
      [99] := by
  constructor <;> rfl

end TaskStorage

